import Mathlib

/-!
Shallow embedding of the matrix-keyboard scan/debounce/ghosting driver
(`src/drivers/input/input_kbd_matrix.c`).

Per-device arrays (`uint8_t state[col_size]`, the per-key stamp array and the
timestamp ring) are modelled as total maps `Nat → Nat` with pointwise update;
the driver only ever reads the indices it writes.  Machine integers are `Nat`
with explicit `% 2 ^ 32` where `uint32_t` overflow matters, and row masks are
explicitly masked to eight bits (`INPUT_KBD_MATRIX_ROW_MASK`).  Kernel time
services used by the driver (`k_cyc_to_us_floor32`) are an abstract
configuration field; their `uint32_t` return type is enforced with a
`% 2 ^ 32` at each use site.
-/

namespace KbdMatrix

/-- `INPUT_KBD_MATRIX_ROW_MASK` (`UINT8_MAX`): row readings are masked to eight bits. -/
def ROW_MASK : Nat := 255

/-- `BIT(r)`: the single-bit row mask used throughout the driver. -/
def BIT (r : Nat) : Nat := 1 <<< r

/-- Unsigned 32-bit subtraction `a - b`, as computed on `uint32_t` values. -/
def u32sub (a b : Nat) : Nat := (a % 2 ^ 32 + (2 ^ 32 - b % 2 ^ 32)) % 2 ^ 32

/-- Pointwise update of an array modelled as a total map. -/
def upd (f : Nat → Nat) (i v : Nat) : Nat → Nat := fun j => if j = i then v else f j

/-- `struct input_kbd_matrix_common_config`: the configuration surface of the
driver.  `cyc_to_us` stands for the kernel conversion `k_cyc_to_us_floor32`,
kept abstract (it is kernel code, not part of this source file). -/
structure Cfg where
  col_size : Nat
  row_size : Nat
  poll_period_us : Nat
  poll_timeout_ms : Nat
  debounce_down_ms : Nat
  debounce_up_ms : Nat
  settle_time_us : Nat
  ghostkey_check : Bool
  scan_occurrences : Nat
  cyc_to_us : Nat → Nat

/-- The mutable per-device state: the four per-column row-mask arrays, the
per-key stamp array `scan_cycle_idx`, the timestamp ring `scan_clk_cycle` and
the ring cursor `scan_cycles_idx`. -/
structure St where
  matrix_new_state : Nat → Nat
  matrix_previous_state : Nat → Nat
  matrix_unstable_state : Nat → Nat
  matrix_stable_state : Nat → Nat
  scan_cycle_idx : Nat → Nat
  scan_clk_cycle : Nat → Nat
  scan_cycles_idx : Nat

/-- A confirmed transition as reported to the input subsystem:
`(column, row, row_bit)`, where the key is reported pressed iff `row_bit ≠ 0`. -/
abbrev Trans := Nat × Nat × Nat

/-- `input_kbd_matrix_scan`: drive each column in turn, read the row lines
(masked to `ROW_MASK`), record them in `matrix_new_state` and accumulate
`key_event`.  `read_row` abstracts `api->read_row`; the electrical settle
busy-wait has no effect on state. -/
def input_kbd_matrix_scan (cfg : Cfg) (read_row : Nat → Nat) (st : St) : St × Bool :=
  let key_event := (List.range cfg.col_size).foldl (fun a col => a ||| (read_row col &&& ROW_MASK)) 0
  ({ st with matrix_new_state := fun col =>
      if col < cfg.col_size then read_row col &&& ROW_MASK else st.matrix_new_state col },
   key_event != 0)

/-- `input_kbd_matrix_ghosting`: for each pair of columns `c < c_next`, AND the
two snapshot entries and report ghosting when the common mask has more than one
bit set (`z &&& (z - 1) ≠ 0`); columns whose snapshot entry is zero are
skipped. -/
def input_kbd_matrix_ghosting (cfg : Cfg) (st : St) : Bool :=
  (List.range cfg.col_size).any fun c =>
    (st.matrix_new_state c != 0) &&
    ((List.range cfg.col_size).any fun c_next =>
      decide (c < c_next) &&
      (let common_row_bits := st.matrix_new_state c &&& st.matrix_new_state c_next
       common_row_bits &&& (common_row_bits - 1) != 0))

/-- The ghosting check with the `!state[c]` column skip removed, for comparison
with the source's version. -/
def ghosting_noskip (cfg : Cfg) (st : St) : Bool :=
  (List.range cfg.col_size).any fun c =>
    (List.range cfg.col_size).any fun c_next =>
      decide (c < c_next) &&
      (let common_row_bits := st.matrix_new_state c &&& st.matrix_new_state c_next
       common_row_bits &&& (common_row_bits - 1) != 0)

/-- The stamp loop of `input_kbd_matrix_update_state`: for every row bit set in
`row_changed`, record the current ring cursor in `scan_cycle_idx[cyc_idx]`,
where `cyc_idx` is the key index `c * row_size + r` truncated through the
source's `uint8_t` local. -/
def stamp_changed (cfg : Cfg) (c row_changed cursor : Nat) (idx : Nat → Nat) : Nat → Nat :=
  (List.range cfg.row_size).foldl
    (fun acc r =>
      if row_changed &&& BIT r ≠ 0 then upd acc ((c * cfg.row_size + r) % 256) cursor else acc)
    idx

/-- One column iteration of the first loop of `input_kbd_matrix_update_state`:
XOR the new and previous snapshots of column `c`; when nonzero, stamp the
changed keys with the current ring cursor, OR the change mask into
`matrix_unstable_state[c]` and adopt the new snapshot as
`matrix_previous_state[c]`. -/
def gather_col (cfg : Cfg) (s : St) (c : Nat) : St :=
  let row_changed := s.matrix_new_state c ^^^ s.matrix_previous_state c
  if row_changed = 0 then s
  else
    { s with
      scan_cycle_idx := stamp_changed cfg c row_changed s.scan_cycles_idx s.scan_cycle_idx,
      matrix_unstable_state := upd s.matrix_unstable_state c (s.matrix_unstable_state c ||| row_changed),
      matrix_previous_state := upd s.matrix_previous_state c (s.matrix_new_state c) }

/-- First loop of `input_kbd_matrix_update_state` over all columns. -/
def gather_changes (cfg : Cfg) (st : St) : St :=
  (List.range cfg.col_size).foldl (gather_col cfg) st

/-- One row iteration of the debouncing loop of `input_kbd_matrix_update_state`
for column `c`.  `new_c` is `matrix_new_state[c]`, `deb_col` the value of
`matrix_unstable_state[c]` read at the head of the column loop, `idx` and `clk`
the stamp array and timestamp ring.  The accumulator carries the in-progress
`matrix_unstable_state[c]`, `matrix_stable_state[c]` and the transitions
emitted so far.  Note the source clears the unstable bit with `&= ~row_bit`
(the current raw level), not `&= ~mask`. -/
def debounce_row (cfg : Cfg) (c : Nat) (new_c deb_col cycles_now : Nat)
    (idx clk : Nat → Nat) (acc : Nat × Nat × List Trans) (r : Nat) : Nat × Nat × List Trans :=
  let mask := BIT r
  let row_bit := new_c &&& mask
  if deb_col &&& mask = 0 then acc
  else
    let scan_cyc_idx := idx (c * cfg.row_size + r)
    let scan_clk_cycle := clk scan_cyc_idx
    let debt := cfg.cyc_to_us (u32sub cycles_now scan_clk_cycle) % 2 ^ 32
    if debt < (if row_bit ≠ 0 then cfg.debounce_down_ms else cfg.debounce_up_ms) then acc
    else
      let unstable := acc.1 &&& (ROW_MASK ^^^ row_bit)
      if acc.2.1 &&& mask = row_bit then (unstable, acc.2.1, acc.2.2)
      else (unstable, acc.2.1 ^^^ mask, acc.2.2 ++ [(c, r, row_bit)])

/-- One column iteration of the debouncing loop: skip columns with no unstable
bits, otherwise run the row loop and write back the column's unstable and
stable masks.  The source reads the key index, the stamp and the ring value
through `uint8_t` locals (`cyc_idx`, `scan_cyc_idx`, `scan_clk_cycle`), so the
maps handed to the row step are composed with the corresponding `% 256`
truncations: the stamp is looked up at the truncated key index and itself
truncated, and the ring value read is truncated — the elapsed time is computed
from the stamped timestamp modulo 256, not from the full stored value. -/
def debounce_col (cfg : Cfg) (cycles_now : Nat) (p : St × List Trans) (c : Nat) : St × List Trans :=
  let s := p.1
  let deb_col := s.matrix_unstable_state c
  if deb_col = 0 then p
  else
    let res := (List.range cfg.row_size).foldl
      (debounce_row cfg c (s.matrix_new_state c) deb_col cycles_now
        (fun k => s.scan_cycle_idx (k % 256) % 256) (fun i => s.scan_clk_cycle i % 256))
      (deb_col, s.matrix_stable_state c, p.2)
    ({ s with matrix_unstable_state := upd s.matrix_unstable_state c res.1,
              matrix_stable_state := upd s.matrix_stable_state c res.2.1 }, res.2.2)

/-- The debouncing (second) loop of `input_kbd_matrix_update_state` over all
columns. -/
def debounce_matrix (cfg : Cfg) (cycles_now : Nat) (st : St) : St × List Trans :=
  (List.range cfg.col_size).foldl (debounce_col cfg cycles_now) (st, [])

/-- `input_kbd_matrix_update_state`: record the full 32-bit `cycles_now` in the
ring slot at the current cursor, gather the raw changes, then debounce every
unstable key (each ring read goes through the `uint8_t` truncations applied in
`debounce_col`).  Returns the new state and the emitted transitions in
column-major, row-minor order. -/
def input_kbd_matrix_update_state (cfg : Cfg) (cycles_now : Nat) (st : St) : St × List Trans :=
  let st1 := { st with scan_clk_cycle := upd st.scan_clk_cycle st.scan_cycles_idx cycles_now }
  debounce_matrix cfg cycles_now (gather_changes cfg st1)

/-- `input_kbd_matrix_check_key_events`: advance the ring cursor (wrapping at
`INPUT_KBD_MATRIX_SCAN_OCURRENCES`), scan the matrix, and unless ghosting vetoes
the cycle run the state update.  Returns the state, the emitted transitions and
the raw-activity flag from the scan. -/
def input_kbd_matrix_check_key_events (cfg : Cfg) (read_row : Nat → Nat) (cycles_now : Nat)
    (st : St) : St × List Trans × Bool :=
  let st0 := { st with scan_cycles_idx :=
    if st.scan_cycles_idx + 1 ≥ cfg.scan_occurrences then 0 else st.scan_cycles_idx + 1 }
  let scanned := input_kbd_matrix_scan cfg read_row st0
  if cfg.ghostkey_check && input_kbd_matrix_ghosting cfg scanned.1 then
    (scanned.1, [], scanned.2)
  else
    let updated := input_kbd_matrix_update_state cfg cycles_now scanned.1
    (updated.1, updated.2, scanned.2)

/-- The adaptive sleep computation at the bottom of `input_kbd_matrix_poll`:
`poll_period_us` minus the elapsed processing time (all `uint32_t` arithmetic),
clamped below by one millisecond and above by `poll_period_us`. -/
def compute_wait_period (cfg : Cfg) (start_period_cycles current_cycles : Nat) : Nat :=
  let cycles_diff := u32sub current_cycles start_period_cycles
  let wait0 := u32sub cfg.poll_period_us (cfg.cyc_to_us cycles_diff % 2 ^ 32)
  let wait1 := if wait0 < 1000 then 1000 else wait0
  if wait1 > cfg.poll_period_us then cfg.poll_period_us else wait1

/-- The idle-timeout decision at the top of the `input_kbd_matrix_poll` loop:
on raw activity reset the deadline to `now + poll_timeout_ms`
(`sys_timepoint_calc`), otherwise exit when the deadline has expired
(`sys_timepoint_expired`).  Returns (keep-polling, new deadline). -/
def poll_step (cfg : Cfg) (key_pressed : Bool) (now poll_time_end : Nat) : Bool × Nat :=
  if key_pressed then (true, now + cfg.poll_timeout_ms)
  else if poll_time_end ≤ now then (false, poll_time_end)
  else (true, poll_time_end)

/-- Number of loop iterations `input_kbd_matrix_poll` executes (the exiting one
included) over a schedule of (raw-activity, current-time) cycles, starting from
the given deadline.  Runs through the whole schedule if it never exits. -/
def poll_cycles (cfg : Cfg) : Nat → List (Bool × Nat) → Nat
  | _, [] => 0
  | poll_time_end, (kp, now) :: rest =>
    let s := poll_step cfg kp now poll_time_end
    if s.1 then poll_cycles cfg s.2 rest + 1 else 1

/-- Iterate `input_kbd_matrix_check_key_events` over a schedule of
(row-readings, cycle-timestamp) pairs, accumulating the emitted transitions. -/
def run_cycles (cfg : Cfg) : St × List Trans → List ((Nat → Nat) × Nat) → St × List Trans
  | p, [] => p
  | p, (rr, now) :: rest =>
    let r := input_kbd_matrix_check_key_events cfg rr now p.1
    run_cycles cfg (r.1, p.2 ++ r.2.1) rest

/-- The all-zero initial state: arrays cleared, ring cursor at zero. -/
def st0 : St :=
  { matrix_new_state := fun _ => 0
    matrix_previous_state := fun _ => 0
    matrix_unstable_state := fun _ => 0
    matrix_stable_state := fun _ => 0
    scan_cycle_idx := fun _ => 0
    scan_clk_cycle := fun _ => 0
    scan_cycles_idx := 0 }

/-- A one-key device used for concrete runs: one column, one row, 1 ms poll
period, 10 ms settle thresholds in both directions, identity cycle-to-µs
conversion (timestamps below are directly in µs). -/
def cfg11 : Cfg :=
  { col_size := 1, row_size := 1, poll_period_us := 1000, poll_timeout_ms := 100,
    debounce_down_ms := 10000, debounce_up_ms := 10000, settle_time_us := 50,
    ghostkey_check := false, scan_occurrences := 30, cyc_to_us := fun d => d }

/-- Scenario: the raw level of key (0,0) toggles every 1 ms for 20 cycles,
faster than both debounce thresholds. -/
def bounceInputs : List ((Nat → Nat) × Nat) :=
  (List.range 20).map (fun i => (fun _ => if i % 2 = 0 then 1 else 0, 1000 * i))

/-- Scenario: the raw level toggles every 1 ms for 20 cycles, then stays
pressed for 15 further cycles, long enough for `debounce_down_ms`. -/
def settleInputs : List ((Nat → Nat) × Nat) :=
  (List.range 35).map
    (fun i => (fun _ => if i < 20 then (if i % 2 = 0 then 1 else 0) else 1, 1000 * i))

/-- A 2×2 device with the ghosting check enabled. -/
def cfgG : Cfg := { cfg11 with col_size := 2, row_size := 2, ghostkey_check := true }

/-- A state whose snapshot shows the full 2×2 block active: both columns sense
rows 0 and 1 — the classic ghosting pattern. -/
def stG : St := { st0 with matrix_new_state := fun _ => 3 }

/-- A one-key device with a 5 µs release threshold and a two-slot ring. -/
def cfgC1 : Cfg := { cfg11 with debounce_up_ms := 5, scan_occurrences := 2 }

/-- Key (0,0) confirmed pressed (stable bit set), raw level now released
(snapshot 0), marked unstable with its stamp pointing at ring slot 0
(timestamp 0), ring cursor at slot 1. -/
def stC1 : St :=
  { st0 with matrix_unstable_state := fun _ => 1, matrix_stable_state := fun _ => 1,
             scan_cycles_idx := 1 }

/-!  ## Helper lemmas  -/

theorem upd_self (f : Nat → Nat) (i v : Nat) : upd f i v i = v := by
  simp [upd]

theorem upd_ne (f : Nat → Nat) {i j : Nat} (v : Nat) (h : j ≠ i) : upd f i v j = f j := by
  simp [upd, h]

theorem u32sub_lt (a b : Nat) : u32sub a b < 2 ^ 32 := by
  exact Nat.mod_lt _ (by norm_num)

theorem nat_lor_eq_zero {a b : Nat} : a ||| b = 0 ↔ a = 0 ∧ b = 0 := by
  constructor
  · intro h
    refine ⟨Nat.eq_of_testBit_eq fun i => ?_, Nat.eq_of_testBit_eq fun i => ?_⟩ <;>
    · have h2 := congrArg (fun z => z.testBit i) h
      simp [Nat.testBit_or] at h2
      simp [h2]
  · rintro ⟨rfl, rfl⟩
    rfl

theorem foldl_or_eq_zero (g : Nat → Nat) (l : List Nat) (a : Nat) :
    l.foldl (fun acc x => acc ||| g x) a = 0 ↔ a = 0 ∧ ∀ x ∈ l, g x = 0 := by
  induction l generalizing a with
  | nil => simp
  | cons y ys ih =>
    simp only [List.foldl_cons, ih, nat_lor_eq_zero, List.mem_cons]
    constructor
    · rintro ⟨⟨ha, hy⟩, hys⟩
      exact ⟨ha, fun x hx => hx.elim (fun hxy => hxy ▸ hy) (hys x)⟩
    · rintro ⟨ha, hall⟩
      exact ⟨⟨ha, hall y (Or.inl rfl)⟩, fun x hx => hall x (Or.inr hx)⟩

theorem BIT_eq (r : Nat) : BIT r = 2 ^ r := Nat.one_shiftLeft r

theorem and_bit_eq (x r : Nat) : x &&& BIT r = (x.testBit r).toNat * 2 ^ r := by
  rw [BIT_eq, Nat.and_two_pow]

theorem and_bit_ne_zero {x r : Nat} : x &&& BIT r ≠ 0 ↔ x.testBit r = true := by
  rw [and_bit_eq]
  cases h : x.testBit r <;> simp [h]

theorem and_bit_eq_zero {x r : Nat} : x &&& BIT r = 0 ↔ x.testBit r = false := by
  rw [and_bit_eq]
  cases h : x.testBit r <;> simp [h]

theorem range_split (r n : Nat) (h : r < n) :
    List.range n = List.range' 0 r ++ r :: List.range' (r + 1) (n - r - 1) := by
  rw [List.range_eq_range']
  have h2 : List.range' 0 r ++ List.range' r (n - r) = List.range' 0 (n - r + r) := by
    have := (List.range'_append 0 r (n - r) 1).symm
    simpa using this.symm
  rw [Nat.sub_add_cancel (Nat.le_of_lt h)] at h2
  rw [← h2]
  congr 1
  have h3 : n - r = (n - r - 1) + 1 := by omega
  rw [h3, List.range'_succ]
  simp

theorem gather_col_fields (cfg : Cfg) (s : St) (c : Nat) :
    (gather_col cfg s c).matrix_new_state = s.matrix_new_state ∧
    (gather_col cfg s c).matrix_stable_state = s.matrix_stable_state ∧
    (gather_col cfg s c).scan_clk_cycle = s.scan_clk_cycle ∧
    (gather_col cfg s c).scan_cycles_idx = s.scan_cycles_idx := by
  by_cases h : s.matrix_new_state c ^^^ s.matrix_previous_state c = 0 <;>
    simp [gather_col, h]

theorem gather_fold_fields (cfg : Cfg) (l : List Nat) (s : St) :
    (l.foldl (gather_col cfg) s).matrix_new_state = s.matrix_new_state ∧
    (l.foldl (gather_col cfg) s).matrix_stable_state = s.matrix_stable_state ∧
    (l.foldl (gather_col cfg) s).scan_clk_cycle = s.scan_clk_cycle ∧
    (l.foldl (gather_col cfg) s).scan_cycles_idx = s.scan_cycles_idx := by
  induction l generalizing s with
  | nil => exact ⟨rfl, rfl, rfl, rfl⟩
  | cons x xs ih =>
    simp only [List.foldl_cons]
    have h1 := gather_col_fields cfg s x
    have h2 := ih (gather_col cfg s x)
    exact ⟨h2.1.trans h1.1, h2.2.1.trans h1.2.1, h2.2.2.1.trans h1.2.2.1,
      h2.2.2.2.trans h1.2.2.2⟩

theorem debounce_col_fields (cfg : Cfg) (now : Nat) (p : St × List Trans) (c : Nat) :
    (debounce_col cfg now p c).1.matrix_new_state = p.1.matrix_new_state ∧
    (debounce_col cfg now p c).1.matrix_previous_state = p.1.matrix_previous_state ∧
    (debounce_col cfg now p c).1.scan_cycle_idx = p.1.scan_cycle_idx ∧
    (debounce_col cfg now p c).1.scan_clk_cycle = p.1.scan_clk_cycle ∧
    (debounce_col cfg now p c).1.scan_cycles_idx = p.1.scan_cycles_idx := by
  by_cases h : p.1.matrix_unstable_state c = 0 <;>
    simp [debounce_col, h]

theorem debounce_fold_fields (cfg : Cfg) (now : Nat) (l : List Nat) (p : St × List Trans) :
    (l.foldl (debounce_col cfg now) p).1.matrix_new_state = p.1.matrix_new_state ∧
    (l.foldl (debounce_col cfg now) p).1.matrix_previous_state = p.1.matrix_previous_state ∧
    (l.foldl (debounce_col cfg now) p).1.scan_cycle_idx = p.1.scan_cycle_idx ∧
    (l.foldl (debounce_col cfg now) p).1.scan_clk_cycle = p.1.scan_clk_cycle ∧
    (l.foldl (debounce_col cfg now) p).1.scan_cycles_idx = p.1.scan_cycles_idx := by
  induction l generalizing p with
  | nil => exact ⟨rfl, rfl, rfl, rfl, rfl⟩
  | cons x xs ih =>
    simp only [List.foldl_cons]
    have h1 := debounce_col_fields cfg now p x
    have h2 := ih (debounce_col cfg now p x)
    exact ⟨h2.1.trans h1.1, h2.2.1.trans h1.2.1, h2.2.2.1.trans h1.2.2.1,
      h2.2.2.2.1.trans h1.2.2.2.1, h2.2.2.2.2.trans h1.2.2.2.2⟩

theorem update_state_fields (cfg : Cfg) (now : Nat) (st : St) :
    (input_kbd_matrix_update_state cfg now st).1.scan_cycles_idx = st.scan_cycles_idx ∧
    (input_kbd_matrix_update_state cfg now st).1.scan_clk_cycle =
      upd st.scan_clk_cycle st.scan_cycles_idx now ∧
    (input_kbd_matrix_update_state cfg now st).1.matrix_new_state = st.matrix_new_state := by
  have h1 := gather_fold_fields cfg (List.range cfg.col_size)
    { st with scan_clk_cycle := upd st.scan_clk_cycle st.scan_cycles_idx now }
  have h2 := debounce_fold_fields cfg now (List.range cfg.col_size)
    (gather_changes cfg { st with scan_clk_cycle := upd st.scan_clk_cycle st.scan_cycles_idx now },
      [])
  exact ⟨h2.2.2.2.2.trans h1.2.2.2, h2.2.2.2.1.trans h1.2.2.1, h2.1.trans h1.1⟩

theorem testBit_ne_zero {x r : Nat} (h : x.testBit r = true) : x ≠ 0 := by
  intro hx
  rw [hx, Nat.zero_testBit] at h
  exact Bool.false_ne_true h

theorem debounce_row_bit_other (cfg : Cfg) (c new_c deb now : Nat) (idx clk : Nat → Nat)
    (acc : Nat × Nat × List Trans) {r r2 : Nat} (hne : r ≠ r2) (hr2 : r2 < 8) :
    ((debounce_row cfg c new_c deb now idx clk acc r).1).testBit r2 = acc.1.testBit r2 ∧
    ((debounce_row cfg c new_c deb now idx clk acc r).2.1).testBit r2 = acc.2.1.testBit r2 := by
  have hmask : (ROW_MASK ^^^ (new_c &&& BIT r)).testBit r2 = true := by
    rw [Nat.testBit_xor]
    have h255 : ROW_MASK.testBit r2 = true := by
      have he : ROW_MASK = 2 ^ 8 - 1 := by norm_num [ROW_MASK]
      rw [he, Nat.testBit_two_pow_sub_one]
      simpa using hr2
    have hrb : (new_c &&& BIT r).testBit r2 = false := by
      rw [and_bit_eq]
      cases h : new_c.testBit r
      · simp
      · simp only [Bool.toNat_true, one_mul]
        exact Nat.testBit_two_pow_of_ne hne
    rw [h255, hrb]
    rfl
  have hstable : ∀ s : Nat, (s ^^^ BIT r).testBit r2 = s.testBit r2 := by
    intro s
    rw [Nat.testBit_xor, BIT_eq, Nat.testBit_two_pow_of_ne hne]
    cases h : s.testBit r2 <;> rfl
  by_cases h1 : deb &&& BIT r = 0
  · simp [debounce_row, h1]
  · by_cases h2 : cfg.cyc_to_us (u32sub now (clk (idx (c * cfg.row_size + r)))) % 4294967296 <
        (if new_c &&& BIT r = 0 then cfg.debounce_up_ms else cfg.debounce_down_ms)
    · simp [debounce_row, h1, h2]
    · by_cases h3 : acc.2.1 &&& BIT r = new_c &&& BIT r
      · simp [debounce_row, h1, h2, h3, Nat.testBit_and, hmask]
      · simp [debounce_row, h1, h2, h3, Nat.testBit_and, hmask, hstable]

theorem debounce_fold_bit_other (cfg : Cfg) (c new_c deb now : Nat) (idx clk : Nat → Nat)
    (L : List Nat) (acc : Nat × Nat × List Trans) (r2 : Nat)
    (hL : ∀ x ∈ L, x ≠ r2) (hr2 : r2 < 8) :
    ((L.foldl (debounce_row cfg c new_c deb now idx clk) acc).1).testBit r2 =
      acc.1.testBit r2 ∧
    ((L.foldl (debounce_row cfg c new_c deb now idx clk) acc).2.1).testBit r2 =
      acc.2.1.testBit r2 := by
  induction L generalizing acc with
  | nil => exact ⟨rfl, rfl⟩
  | cons x xs ih =>
    simp only [List.foldl_cons]
    have hx := debounce_row_bit_other cfg c new_c deb now idx clk acc
      (hL x (List.mem_cons_self x xs)) hr2
    have h2 := ih (debounce_row cfg c new_c deb now idx clk acc x)
      (fun y hy => hL y (List.mem_cons_of_mem x hy))
    exact ⟨h2.1.trans hx.1, h2.2.trans hx.2⟩

theorem debounce_col_other (cfg : Cfg) (now : Nat) (p : St × List Trans) {c c2 : Nat}
    (hne : c ≠ c2) :
    (debounce_col cfg now p c).1.matrix_unstable_state c2 = p.1.matrix_unstable_state c2 ∧
    (debounce_col cfg now p c).1.matrix_stable_state c2 = p.1.matrix_stable_state c2 := by
  by_cases h : p.1.matrix_unstable_state c = 0
  · simp [debounce_col, h]
  · simp [debounce_col, h, upd, Ne.symm hne]

theorem debounce_fold_other (cfg : Cfg) (now : Nat) (L : List Nat) (p : St × List Trans)
    (c2 : Nat) (hL : ∀ x ∈ L, x ≠ c2) :
    (L.foldl (debounce_col cfg now) p).1.matrix_unstable_state c2 =
      p.1.matrix_unstable_state c2 ∧
    (L.foldl (debounce_col cfg now) p).1.matrix_stable_state c2 =
      p.1.matrix_stable_state c2 := by
  induction L generalizing p with
  | nil => exact ⟨rfl, rfl⟩
  | cons x xs ih =>
    simp only [List.foldl_cons]
    have hx := debounce_col_other cfg now p (hL x (List.mem_cons_self x xs))
    have h2 := ih (debounce_col cfg now p x) (fun y hy => hL y (List.mem_cons_of_mem x hy))
    exact ⟨h2.1.trans hx.1, h2.2.trans hx.2⟩

/-!  ## Claims  -/

/-- C7: `input_kbd_matrix_scan` writes one row mask per column into the
new-state snapshot for every column index `0 ≤ c < col_size` (and touches no
other entry), returns `true` iff the OR of all sensed row masks is nonzero
(equivalently, iff some sensed column mask is nonzero), and modifies none of
the debounce structures: previous, unstable and stable state, the per-key
stamp array, the timestamp ring and the ring cursor are all unchanged. -/
theorem C7_scan_pure (cfg : Cfg) (rr : Nat → Nat) (st : St) :
    (∀ c, c < cfg.col_size → (input_kbd_matrix_scan cfg rr st).1.matrix_new_state c = rr c &&& ROW_MASK) ∧
    (∀ c, ¬ c < cfg.col_size →
      (input_kbd_matrix_scan cfg rr st).1.matrix_new_state c = st.matrix_new_state c) ∧
    ((input_kbd_matrix_scan cfg rr st).2 = true ↔
      (List.range cfg.col_size).foldl (fun a col => a ||| (rr col &&& ROW_MASK)) 0 ≠ 0) ∧
    ((input_kbd_matrix_scan cfg rr st).2 = true ↔
      ∃ c, c < cfg.col_size ∧ rr c &&& ROW_MASK ≠ 0) ∧
    (input_kbd_matrix_scan cfg rr st).1.matrix_previous_state = st.matrix_previous_state ∧
    (input_kbd_matrix_scan cfg rr st).1.matrix_unstable_state = st.matrix_unstable_state ∧
    (input_kbd_matrix_scan cfg rr st).1.matrix_stable_state = st.matrix_stable_state ∧
    (input_kbd_matrix_scan cfg rr st).1.scan_cycle_idx = st.scan_cycle_idx ∧
    (input_kbd_matrix_scan cfg rr st).1.scan_clk_cycle = st.scan_clk_cycle ∧
    (input_kbd_matrix_scan cfg rr st).1.scan_cycles_idx = st.scan_cycles_idx := by
  refine ⟨?_, ?_, ?_, ?_, rfl, rfl, rfl, rfl, rfl, rfl⟩
  · intro c hc
    simp [input_kbd_matrix_scan, hc]
  · intro c hc
    simp [input_kbd_matrix_scan, hc]
  · simp [input_kbd_matrix_scan]
  · simp only [input_kbd_matrix_scan, bne_iff_ne, ne_eq]
    constructor
    · intro hne
      by_contra hnex
      push_neg at hnex
      apply hne
      rw [foldl_or_eq_zero]
      exact ⟨rfl, fun x hx => hnex x (List.mem_range.mp hx)⟩
    · rintro ⟨c, hc, hne⟩ h0
      rw [foldl_or_eq_zero] at h0
      exact hne (h0.2 c (List.mem_range.mpr hc))

/-- C7 witness: the scan of a two-column device with rows 0x103 and 0 sensed
masks column 0 to 0x03, reports activity, and leaves the stable state map
untouched. -/
theorem C7_scan_pure_witness :
    (input_kbd_matrix_scan { cfg11 with col_size := 2 } (fun c => if c = 0 then 259 else 0)
        st0).1.matrix_new_state 0 = 3 ∧
    ((input_kbd_matrix_scan { cfg11 with col_size := 2 } (fun c => if c = 0 then 259 else 0)
        st0).2 = true ↔
      ∃ c, c < 2 ∧ (if c = 0 then 259 else 0) &&& ROW_MASK ≠ 0) := by
  have h := C7_scan_pure { cfg11 with col_size := 2 } (fun c => if c = 0 then 259 else 0) st0
  refine ⟨?_, ?_⟩
  · have h0 := h.1 0 (by norm_num)
    rw [h0]
    decide
  · exact h.2.2.2.1

/-- C2: in the polling loop, for any sensible configuration (a poll period of
at least one millisecond, representable in `uint32_t`), the computed sleep
duration always lies between one millisecond and `poll_period_us` — never
negative or zero — and whenever the `uint32_t` subtraction
`poll_period_us - elapsed_us` wraps to a value exceeding `poll_period_us`
(in particular whenever the elapsed processing time exceeds `poll_period_us`),
the full `poll_period_us` is slept instead. -/
theorem C2_sleep_clamping (cfg : Cfg) (s c : Nat)
    (h1 : 1000 ≤ cfg.poll_period_us) (h2 : cfg.poll_period_us < 2 ^ 32) :
    (1000 ≤ compute_wait_period cfg s c ∧ compute_wait_period cfg s c ≤ cfg.poll_period_us) ∧
    (cfg.poll_period_us < u32sub cfg.poll_period_us (cfg.cyc_to_us (u32sub c s) % 2 ^ 32) →
      compute_wait_period cfg s c = cfg.poll_period_us) ∧
    (cfg.poll_period_us < cfg.cyc_to_us (u32sub c s) % 2 ^ 32 →
      compute_wait_period cfg s c = cfg.poll_period_us) := by
  simp only [compute_wait_period, u32sub, show (2:Nat) ^ 32 = 4294967296 by norm_num] at *
  split_ifs <;>
    refine ⟨⟨by omega, by omega⟩, fun h5 => by omega, fun h6 => by omega⟩

/-- C2 witness: with a 5 ms poll period and identity cycle conversion, a cycle
that took 100 µs sleeps within [1 ms, 5 ms], and a cycle that took 6000 µs
(more than the poll period, so the subtraction wraps) sleeps the full 5 ms. -/
theorem C2_sleep_clamping_witness :
    (1000 ≤ compute_wait_period { cfg11 with poll_period_us := 5000 } 0 100 ∧
      compute_wait_period { cfg11 with poll_period_us := 5000 } 0 100 ≤ 5000) ∧
    compute_wait_period { cfg11 with poll_period_us := 5000 } 0 6000 = 5000 := by
  have ha := C2_sleep_clamping { cfg11 with poll_period_us := 5000 } 0 100
    (by norm_num) (by norm_num)
  have hb := C2_sleep_clamping { cfg11 with poll_period_us := 5000 } 0 6000
    (by norm_num) (by norm_num)
  exact ⟨⟨ha.1.1, ha.1.2⟩, hb.2.2 (by decide)⟩

/-- C4: on a scan cycle where the ghosting check is enabled and the detector
reports ghosting on the fresh snapshot, the debounce update is skipped
entirely: previous, unstable and stable state, the per-key stamp array and the
timestamp ring are all unchanged, no transition is emitted, and the cycle's
raw-activity flag (the scan's return value) is still returned to the polling
loop. -/
theorem C4_ghosting_veto (cfg : Cfg) (rr : Nat → Nat) (now : Nat) (st : St)
    (hg : cfg.ghostkey_check = true)
    (hghost : input_kbd_matrix_ghosting cfg (input_kbd_matrix_scan cfg rr st).1 = true) :
    (input_kbd_matrix_check_key_events cfg rr now st).1.matrix_previous_state =
        st.matrix_previous_state ∧
    (input_kbd_matrix_check_key_events cfg rr now st).1.matrix_unstable_state =
        st.matrix_unstable_state ∧
    (input_kbd_matrix_check_key_events cfg rr now st).1.matrix_stable_state =
        st.matrix_stable_state ∧
    (input_kbd_matrix_check_key_events cfg rr now st).1.scan_cycle_idx = st.scan_cycle_idx ∧
    (input_kbd_matrix_check_key_events cfg rr now st).1.scan_clk_cycle = st.scan_clk_cycle ∧
    (input_kbd_matrix_check_key_events cfg rr now st).2.1 = [] ∧
    (input_kbd_matrix_check_key_events cfg rr now st).2.2 = (input_kbd_matrix_scan cfg rr st).2 := by
  have hsame : input_kbd_matrix_ghosting cfg
      (input_kbd_matrix_scan cfg rr
        { st with scan_cycles_idx :=
            if st.scan_cycles_idx + 1 ≥ cfg.scan_occurrences then 0
            else st.scan_cycles_idx + 1 }).1 = true := hghost
  simp only [input_kbd_matrix_check_key_events, hg, hsame, Bool.and_self, if_true]
  simp [input_kbd_matrix_scan]

/-- C4 witness: a 2×2 device sensing the full 2×2 block (a classic ghosting
pattern) keeps its stable state and emits nothing, while still reporting raw
activity. -/
theorem C4_ghosting_veto_witness :
    (input_kbd_matrix_check_key_events
        { cfg11 with col_size := 2, row_size := 2, ghostkey_check := true }
        (fun _ => 3) 5000 st0).1.matrix_stable_state = st0.matrix_stable_state ∧
    (input_kbd_matrix_check_key_events
        { cfg11 with col_size := 2, row_size := 2, ghostkey_check := true }
        (fun _ => 3) 5000 st0).2.1 = [] ∧
    (input_kbd_matrix_check_key_events
        { cfg11 with col_size := 2, row_size := 2, ghostkey_check := true }
        (fun _ => 3) 5000 st0).2.2 =
      (input_kbd_matrix_scan { cfg11 with col_size := 2, row_size := 2, ghostkey_check := true }
        (fun _ => 3) st0).2 := by
  have h := C4_ghosting_veto { cfg11 with col_size := 2, row_size := 2, ghostkey_check := true }
    (fun _ => 3) 5000 st0 (by decide) (by decide)
  exact ⟨h.2.2.1, h.2.2.2.2.2.1, h.2.2.2.2.2.2⟩

/-- C10: `input_kbd_matrix_check_key_events` advances the ring cursor modulo
the ring capacity at the start of every cycle, before scanning and regardless
of the ghosting outcome; the timestamp for the cycle is written into the ring
slot at the advanced cursor only when the debounce update actually runs.  On a
vetoed cycle the ring keeps all its stale contents, so any key's stamped
timestamp (`scan_clk_cycle[scan_cycle_idx[k]]`) still reads the stale previous
value on later elapsed-time computations. -/
theorem C10_ring_cursor (cfg : Cfg) (rr : Nat → Nat) (now : Nat) (st : St) :
    (input_kbd_matrix_check_key_events cfg rr now st).1.scan_cycles_idx =
      (if st.scan_cycles_idx + 1 ≥ cfg.scan_occurrences then 0 else st.scan_cycles_idx + 1) ∧
    (cfg.ghostkey_check = true →
      input_kbd_matrix_ghosting cfg (input_kbd_matrix_scan cfg rr st).1 = true →
      (input_kbd_matrix_check_key_events cfg rr now st).1.scan_clk_cycle = st.scan_clk_cycle ∧
      ∀ k, (input_kbd_matrix_check_key_events cfg rr now st).1.scan_clk_cycle
             ((input_kbd_matrix_check_key_events cfg rr now st).1.scan_cycle_idx k) =
           st.scan_clk_cycle (st.scan_cycle_idx k)) ∧
    ((cfg.ghostkey_check &&
        input_kbd_matrix_ghosting cfg (input_kbd_matrix_scan cfg rr st).1) = false →
      (input_kbd_matrix_check_key_events cfg rr now st).1.scan_clk_cycle =
        upd st.scan_clk_cycle
          (if st.scan_cycles_idx + 1 ≥ cfg.scan_occurrences then 0 else st.scan_cycles_idx + 1)
          now) := by
  by_cases hG : (cfg.ghostkey_check && input_kbd_matrix_ghosting cfg
      (input_kbd_matrix_scan cfg rr
        { st with scan_cycles_idx :=
            if st.scan_cycles_idx + 1 ≥ cfg.scan_occurrences then 0
            else st.scan_cycles_idx + 1 }).1) = true
  · simp only [input_kbd_matrix_check_key_events, hG, if_true]
    refine ⟨rfl, fun _ _ => ⟨rfl, fun k => rfl⟩, fun hfalse => ?_⟩
    have hff : (cfg.ghostkey_check && input_kbd_matrix_ghosting cfg
        (input_kbd_matrix_scan cfg rr
          { st with scan_cycles_idx :=
              if st.scan_cycles_idx + 1 ≥ cfg.scan_occurrences then 0
              else st.scan_cycles_idx + 1 }).1) = false := hfalse
    simp [hff] at hG
  · rw [Bool.not_eq_true] at hG
    simp only [input_kbd_matrix_check_key_events, hG, Bool.false_eq_true, if_false]
    refine ⟨?_, fun hg hghost => ?_, fun _ => ?_⟩
    · exact (update_state_fields cfg now _).1
    · have hsame : input_kbd_matrix_ghosting cfg
          (input_kbd_matrix_scan cfg rr
            { st with scan_cycles_idx :=
                if st.scan_cycles_idx + 1 ≥ cfg.scan_occurrences then 0
                else st.scan_cycles_idx + 1 }).1 = true := hghost
      rw [hg, hsame] at hG
      exact absurd hG (by simp)
    · exact (update_state_fields cfg now _).2.1

/-- C10 witness: on the ghosting 2×2 block the cursor still advances (from 0
to 1) while the ring slot keeps its content, and the stamped timestamp of key
0 still reads the stale value 0. -/
theorem C10_ring_cursor_witness :
    (input_kbd_matrix_check_key_events
        { cfg11 with col_size := 2, row_size := 2, ghostkey_check := true }
        (fun _ => 3) 5000 st0).1.scan_cycles_idx = 1 ∧
    (input_kbd_matrix_check_key_events
        { cfg11 with col_size := 2, row_size := 2, ghostkey_check := true }
        (fun _ => 3) 5000 st0).1.scan_clk_cycle = st0.scan_clk_cycle ∧
    (input_kbd_matrix_check_key_events
        { cfg11 with col_size := 2, row_size := 2, ghostkey_check := true }
        (fun _ => 3) 5000 st0).1.scan_clk_cycle
      ((input_kbd_matrix_check_key_events
        { cfg11 with col_size := 2, row_size := 2, ghostkey_check := true }
        (fun _ => 3) 5000 st0).1.scan_cycle_idx 0) = st0.scan_clk_cycle (st0.scan_cycle_idx 0) := by
  have h := C10_ring_cursor { cfg11 with col_size := 2, row_size := 2, ghostkey_check := true }
    (fun _ => 3) 5000 st0
  have hv := h.2.1 (by decide) (by decide)
  exact ⟨h.1.trans (by decide), hv.1, hv.2 0⟩

/-- C9: `matrix_stable_state` is written only by the debouncing step.  The raw
scan and the change-gathering loop leave it untouched; a full
`input_kbd_matrix_check_key_events` cycle either leaves it unchanged (ghosting
veto) or produces exactly the stable state computed by
`input_kbd_matrix_update_state` on a state whose stable map equals the old
one; and each debouncing row step either emits nothing and keeps the column's
stable mask, or emits exactly one transition while flipping exactly the
corresponding stable bit. -/
theorem C9_stable_only_debounce (cfg : Cfg) :
    (∀ rr st, (input_kbd_matrix_scan cfg rr st).1.matrix_stable_state = st.matrix_stable_state) ∧
    (∀ st, (gather_changes cfg st).matrix_stable_state = st.matrix_stable_state) ∧
    (∀ c new_c deb now idx clk acc r,
      ((debounce_row cfg c new_c deb now idx clk acc r).2.1 = acc.2.1 ∧
        (debounce_row cfg c new_c deb now idx clk acc r).2.2 = acc.2.2) ∨
      ((debounce_row cfg c new_c deb now idx clk acc r).2.1 = acc.2.1 ^^^ BIT r ∧
        (debounce_row cfg c new_c deb now idx clk acc r).2.2 =
          acc.2.2 ++ [(c, r, new_c &&& BIT r)])) ∧
    (∀ rr now st,
      (input_kbd_matrix_check_key_events cfg rr now st).1.matrix_stable_state =
        st.matrix_stable_state ∨
      ∃ s', s'.matrix_stable_state = st.matrix_stable_state ∧
        (input_kbd_matrix_check_key_events cfg rr now st).1.matrix_stable_state =
          (input_kbd_matrix_update_state cfg now s').1.matrix_stable_state) := by
  refine ⟨fun rr st => rfl, fun st => (gather_fold_fields cfg _ st).2.1, ?_, ?_⟩
  · intro c new_c deb now idx clk acc r
    by_cases h1 : deb &&& BIT r = 0
    · left; simp [debounce_row, h1]
    · by_cases h2 : cfg.cyc_to_us (u32sub now (clk (idx (c * cfg.row_size + r)))) % 4294967296 <
          (if new_c &&& BIT r = 0 then cfg.debounce_up_ms else cfg.debounce_down_ms)
      · left; simp [debounce_row, h1, h2]
      · by_cases h3 : acc.2.1 &&& BIT r = new_c &&& BIT r
        · left; simp [debounce_row, h1, h2, h3]
        · right; simp [debounce_row, h1, h2, h3]
  · intro rr now st
    by_cases hG : (cfg.ghostkey_check && input_kbd_matrix_ghosting cfg
        (input_kbd_matrix_scan cfg rr
          { st with scan_cycles_idx :=
              if st.scan_cycles_idx + 1 ≥ cfg.scan_occurrences then 0
              else st.scan_cycles_idx + 1 }).1) = true
    · left
      simp only [input_kbd_matrix_check_key_events, hG, if_true]
      rfl
    · right
      rw [Bool.not_eq_true] at hG
      refine ⟨(input_kbd_matrix_scan cfg rr
        { st with scan_cycles_idx :=
            if st.scan_cycles_idx + 1 ≥ cfg.scan_occurrences then 0
            else st.scan_cycles_idx + 1 }).1, rfl, ?_⟩
      simp only [input_kbd_matrix_check_key_events, hG, Bool.false_eq_true, if_false]

set_option maxRecDepth 40000 in
/-- C3: the ghosting detector returns `true` iff some pair of columns
`c < c_next` has a common row mask with more than one bit set, tested as
`common &&& (common - 1) ≠ 0`; skipping columns with a zero snapshot does not
change the result; and for eight-bit masks the test `z &&& (z - 1) ≠ 0` is
exactly "more than one bit set". -/
theorem C3_ghosting_iff (cfg : Cfg) (st : St) :
    (input_kbd_matrix_ghosting cfg st = true ↔
      ∃ c c_next, c < c_next ∧ c_next < cfg.col_size ∧
        (st.matrix_new_state c &&& st.matrix_new_state c_next) &&&
          ((st.matrix_new_state c &&& st.matrix_new_state c_next) - 1) ≠ 0) ∧
    input_kbd_matrix_ghosting cfg st = ghosting_noskip cfg st ∧
    (∀ z, z < 256 →
      ((z &&& (z - 1) ≠ 0) ↔ 1 < (List.range 8).countP (fun i => z.testBit i))) := by
  have h1 : input_kbd_matrix_ghosting cfg st = true ↔
      ∃ c c_next, c < c_next ∧ c_next < cfg.col_size ∧
        (st.matrix_new_state c &&& st.matrix_new_state c_next) &&&
          ((st.matrix_new_state c &&& st.matrix_new_state c_next) - 1) ≠ 0 := by
    simp only [input_kbd_matrix_ghosting, List.any_eq_true, List.mem_range, Bool.and_eq_true,
      decide_eq_true_eq, bne_iff_ne, ne_eq]
    constructor
    · rintro ⟨c, hc, -, c_next, hcn, hlt, hne⟩
      exact ⟨c, c_next, hlt, hcn, hne⟩
    · rintro ⟨c, c_next, hlt, hcn, hne⟩
      refine ⟨c, Nat.lt_trans hlt hcn, ?_, c_next, hcn, hlt, hne⟩
      intro hzero
      apply hne
      rw [hzero, Nat.zero_and, Nat.zero_and]
  have h2 : ghosting_noskip cfg st = true ↔
      ∃ c c_next, c < c_next ∧ c_next < cfg.col_size ∧
        (st.matrix_new_state c &&& st.matrix_new_state c_next) &&&
          ((st.matrix_new_state c &&& st.matrix_new_state c_next) - 1) ≠ 0 := by
    simp only [ghosting_noskip, List.any_eq_true, List.mem_range, Bool.and_eq_true,
      decide_eq_true_eq, bne_iff_ne, ne_eq]
    constructor
    · rintro ⟨c, hc, c_next, hcn, hlt, hne⟩
      exact ⟨c, c_next, hlt, hcn, hne⟩
    · rintro ⟨c, c_next, hlt, hcn, hne⟩
      exact ⟨c, Nat.lt_trans hlt hcn, c_next, hcn, hlt, hne⟩
  refine ⟨h1, Bool.coe_iff_coe.mp (h1.trans h2.symm), ?_⟩
  decide

/-- C3 witness: on the 2×2 ghosting block the detector agrees with its
skip-free variant, and for `z = 7` (three bits set) the popcount form of the
test is discharged at a concrete input. -/
theorem C3_ghosting_iff_witness :
    input_kbd_matrix_ghosting cfgG stG = ghosting_noskip cfgG stG ∧
    ((7 &&& (7 - 1) ≠ 0) ↔ 1 < (List.range 8).countP (fun i => Nat.testBit 7 i)) := by
  have h := C3_ghosting_iff cfgG stG
  exact ⟨h.2.1, h.2.2 7 (by norm_num)⟩

/-- C6: when a key's debounce window closes (elapsed time at or above the
direction-appropriate threshold, with the key marked for debouncing), then: if
the key's current raw level equals the corresponding `matrix_stable_state`
bit, no transition is emitted for that key and the stable mask is unchanged;
otherwise the stable bit is flipped and exactly one transition
`(c, r, row_bit)` is emitted — reported pressed iff the raw level `row_bit` is
nonzero. -/
theorem C6_window_close (cfg : Cfg) (c new_c deb_col now : Nat) (idx clk : Nat → Nat)
    (acc : Nat × Nat × List Trans) (r : Nat)
    (hdeb : deb_col &&& BIT r ≠ 0)
    (hdebt : (if new_c &&& BIT r ≠ 0 then cfg.debounce_down_ms else cfg.debounce_up_ms) ≤
      cfg.cyc_to_us (u32sub now (clk (idx (c * cfg.row_size + r)))) % 2 ^ 32) :
    (acc.2.1 &&& BIT r = new_c &&& BIT r →
      (debounce_row cfg c new_c deb_col now idx clk acc r).2.1 = acc.2.1 ∧
      (debounce_row cfg c new_c deb_col now idx clk acc r).2.2 = acc.2.2) ∧
    (acc.2.1 &&& BIT r ≠ new_c &&& BIT r →
      (debounce_row cfg c new_c deb_col now idx clk acc r).2.1 = acc.2.1 ^^^ BIT r ∧
      (debounce_row cfg c new_c deb_col now idx clk acc r).2.2 =
        acc.2.2 ++ [(c, r, new_c &&& BIT r)]) := by
  have h32 : (2:Nat) ^ 32 = 4294967296 := by norm_num
  rw [h32] at hdebt
  by_cases hrb : new_c &&& BIT r = 0
  · rw [if_neg (not_not_intro hrb)] at hdebt
    refine ⟨fun hs => ?_, fun hs => ?_⟩ <;>
    · rw [hrb] at hs
      simp [debounce_row, hdeb, hrb, Nat.not_lt.mpr hdebt, hs]
  · rw [if_pos hrb] at hdebt
    refine ⟨fun hs => ?_, fun hs => ?_⟩ <;>
      simp [debounce_row, hdeb, hrb, Nat.not_lt.mpr hdebt, hs]

/-- C5 counterexample: on the one-key device with 10 ms thresholds and 1 ms
polling, a raw level toggling every 1 ms (faster than both thresholds) does
emit confirmed transitions — the stamped timestamp is read back through a
`uint8_t`, i.e. modulo 256, so from the twelfth cycle on the computed elapsed
time (`now - now % 256`) already exceeds the threshold — and the
bounce-then-settle run emits nine transitions rather than exactly one: the
claim's hysteresis sentence is false of the code. -/
theorem C5_hysteresis_counterexample :
    (run_cycles cfg11 (st0, []) bounceInputs).2 ≠ [] ∧
    (run_cycles cfg11 (st0, []) bounceInputs).2.length = 8 ∧
    (run_cycles cfg11 (st0, []) settleInputs).2 ≠ [(0, 0, 1)] := by
  exact ⟨by decide, by decide, by decide⟩

/-- C5 (amended): the debouncing step selects its settle threshold from the
key's current raw level in the latest snapshot — `debounce_down_ms` when
pressed, `debounce_up_ms` when released — and judges a settled key by that
current (final observed) level: while the elapsed time is below the threshold
the step changes nothing, and at window close the emitted transition carries
the current raw level.  But because the stamped timestamp is read back modulo
256 (the `uint8_t` local of the source), the elapsed time computed for a
freshly stamped key is `now - now % 256` rather than zero, so the intended
hysteresis fails: on the one-key device the raw level toggling every 1 ms
emits alternating press/release transitions from the twelfth cycle on (eight
in twenty cycles), and the bounce-then-settle run emits those eight plus one
final pressed transition at the cycle the level settles, ending with the
stable state pressed. -/
theorem C5_debounce_hysteresis (cfg : Cfg) (c new_c deb_col now : Nat) (idx clk : Nat → Nat)
    (acc : Nat × Nat × List Trans) (r : Nat) (hdeb : deb_col &&& BIT r ≠ 0) :
    (cfg.cyc_to_us (u32sub now (clk (idx (c * cfg.row_size + r)))) % 2 ^ 32 <
        (if new_c &&& BIT r ≠ 0 then cfg.debounce_down_ms else cfg.debounce_up_ms) →
      debounce_row cfg c new_c deb_col now idx clk acc r = acc) ∧
    ((if new_c &&& BIT r ≠ 0 then cfg.debounce_down_ms else cfg.debounce_up_ms) ≤
        cfg.cyc_to_us (u32sub now (clk (idx (c * cfg.row_size + r)))) % 2 ^ 32 →
      acc.2.1 &&& BIT r ≠ new_c &&& BIT r →
      (debounce_row cfg c new_c deb_col now idx clk acc r).2.2 =
        acc.2.2 ++ [(c, r, new_c &&& BIT r)]) ∧
    (run_cycles cfg11 (st0, []) bounceInputs).2 =
      [(0, 0, 1), (0, 0, 0), (0, 0, 1), (0, 0, 0),
        (0, 0, 1), (0, 0, 0), (0, 0, 1), (0, 0, 0)] ∧
    (run_cycles cfg11 (st0, []) settleInputs).2 =
      [(0, 0, 1), (0, 0, 0), (0, 0, 1), (0, 0, 0),
        (0, 0, 1), (0, 0, 0), (0, 0, 1), (0, 0, 0), (0, 0, 1)] ∧
    (run_cycles cfg11 (st0, []) settleInputs).1.matrix_stable_state 0 = 1 := by
  have h32 : (2:Nat) ^ 32 = 4294967296 := by norm_num
  refine ⟨?_, ?_, by decide, by decide, by decide⟩
  · intro hlt
    rw [h32] at hlt
    by_cases hrb : new_c &&& BIT r = 0
    · rw [if_neg (not_not_intro hrb)] at hlt
      simp [debounce_row, hdeb, hrb, hlt]
    · rw [if_pos hrb] at hlt
      simp [debounce_row, hdeb, hrb, hlt]
  · intro hdebt hs
    rw [h32] at hdebt
    by_cases hrb : new_c &&& BIT r = 0
    · rw [if_neg (not_not_intro hrb)] at hdebt
      rw [hrb] at hs
      simp [debounce_row, hdeb, hrb, Nat.not_lt.mpr hdebt, hs]
    · rw [if_pos hrb] at hdebt
      simp [debounce_row, hdeb, hrb, Nat.not_lt.mpr hdebt, hs]

/-- C6 witness: a pressed key (raw level 1, stable 0) whose 10 ms window
closed at 20 ms flips the stable bit and emits exactly one pressed
transition. -/
theorem C6_window_close_witness :
    (debounce_row cfg11 0 1 1 20000 (fun _ => 0) (fun _ => 0) (1, 0, []) 0).2.1 = 0 ^^^ BIT 0 ∧
    (debounce_row cfg11 0 1 1 20000 (fun _ => 0) (fun _ => 0) (1, 0, []) 0).2.2 =
      [] ++ [(0, 0, 1 &&& BIT 0)] := by
  exact (C6_window_close cfg11 0 1 1 20000 (fun _ => 0) (fun _ => 0) (1, 0, []) 0
    (by decide) (by decide)).2 (by decide)

/-- C5 witness: at 5 ms elapsed (below the 10 ms threshold) the debouncing
step changes nothing for the key, and the bounce-then-settle run ends with the
stable state pressed. -/
theorem C5_debounce_hysteresis_witness :
    debounce_row cfg11 0 1 1 5000 (fun _ => 0) (fun _ => 0) (1, 0, []) 0 = (1, 0, []) ∧
    (run_cycles cfg11 (st0, []) settleInputs).1.matrix_stable_state 0 = 1 := by
  have h := C5_debounce_hysteresis cfg11 0 1 1 5000 (fun _ => 0) (fun _ => 0) (1, 0, []) 0
    (by decide)
  exact ⟨h.1 (by decide), h.2.2.2.2⟩

/-- C8: in the active polling loop, a cycle with raw activity resets the idle
deadline to `now + poll_timeout_ms`; a cycle without activity exits exactly
when the deadline has passed; and over a schedule of activity-free cycles
spaced one poll period apart the loop runs until the first cycle at or past
the deadline, whose time lies within one poll period after the deadline. -/
theorem C8_idle_timeout (cfg : Cfg) :
    (∀ now dl, poll_step cfg true now dl = (true, now + cfg.poll_timeout_ms)) ∧
    (∀ now dl, (poll_step cfg false now dl).1 = false ↔ dl ≤ now) ∧
    (∀ pp t0 dl n, 0 < pp → t0 < dl + pp → (∃ i, i < n ∧ dl ≤ t0 + i * pp) →
      ∃ j, j < n ∧
        poll_cycles cfg dl ((List.range n).map fun i => (false, t0 + i * pp)) = j + 1 ∧
        dl ≤ t0 + j * pp ∧ t0 + j * pp < dl + pp) := by
  refine ⟨fun now dl => rfl, fun now dl => ?_, ?_⟩
  · by_cases h : dl ≤ now <;> simp [poll_step, h]
  · intro pp t0 dl n hpp
    induction n generalizing t0 with
    | zero =>
      intro hstart hexit
      obtain ⟨i, hi, -⟩ := hexit
      omega
    | succ m ih =>
      intro hstart hexit
      rw [List.range_succ_eq_map, List.map_cons, List.map_map]
      by_cases hnow : dl ≤ t0
      · refine ⟨0, Nat.succ_pos m, ?_, by simpa using hnow, by simpa using hstart⟩
        simp [poll_cycles, poll_step, hnow]
      · have hmap : (List.range m).map ((fun i => (false, t0 + i * pp)) ∘ Nat.succ) =
            (List.range m).map (fun i => (false, (t0 + pp) + i * pp)) := by
          apply List.map_congr_left
          intro i hi
          simp only [Function.comp_apply, Prod.mk.injEq, true_and]
          rw [Nat.succ_mul]
          omega
        rw [hmap]
        have hexit2 : ∃ i, i < m ∧ dl ≤ (t0 + pp) + i * pp := by
          obtain ⟨i, hi, hdle⟩ := hexit
          cases i with
          | zero => omega
          | succ i2 =>
            refine ⟨i2, by omega, ?_⟩
            rw [Nat.succ_mul] at hdle
            omega
        obtain ⟨j, hj, hcyc, h1, h2⟩ := ih (t0 + pp) (by omega) hexit2
        refine ⟨j + 1, by omega, ?_, ?_, ?_⟩
        · have hstep : poll_cycles cfg dl
              ((false, t0 + 0 * pp) :: (List.range m).map (fun i => (false, (t0 + pp) + i * pp))) =
              poll_cycles cfg dl ((List.range m).map (fun i => (false, (t0 + pp) + i * pp))) + 1 := by
            simp [poll_cycles, poll_step, hnow]
          rw [hstep, hcyc]
        · rw [Nat.succ_mul]
          omega
        · rw [Nat.succ_mul]
          omega

/-- C8 witness: with the one-key device, a cycle with activity at time 5
resets the deadline to 105, a cycle without activity at time 9 with deadline 5
exits, and with deadline 5 and cycles at times 0, 2, 4, ... the loop exits on
its fourth cycle (time 6, within one 2-unit period past the deadline). -/
theorem C8_idle_timeout_witness :
    poll_step cfg11 true 5 9 = (true, 5 + cfg11.poll_timeout_ms) ∧
    ((poll_step cfg11 false 9 5).1 = false ↔ 5 ≤ 9) ∧
    (∃ j, j < 10 ∧
      poll_cycles cfg11 5 ((List.range 10).map fun i => (false, 0 + i * 2)) = j + 1 ∧
      5 ≤ 0 + j * 2 ∧ 0 + j * 2 < 5 + 2) := by
  have h := C8_idle_timeout cfg11
  exact ⟨h.1 5 9, h.2.1 9 5, h.2.2 2 0 5 10 (by norm_num) (by norm_num) ⟨3, by norm_num⟩⟩

/-- C1 (amended): in the debouncing loop, for a key `(c, r)` whose bit is set
in `matrix_unstable_state[c]` when the loop reads the column, once the elapsed
time as the program computes it — from the stamped timestamp read back through
the `uint8_t` locals, i.e. modulo 256 — reaches the direction-appropriate
threshold, the key is settled this cycle regardless of whether a transition is
emitted; but the clear mask is `~row_bit`, not `~mask`, so the unstable bit is
actually cleared only when the key's current raw level is pressed — when the
current raw level is released the clear is a no-op and the bit stays set.  The
final unstable bit equals the negation of the current raw-level bit. -/
theorem C1_unstable_amended (cfg : Cfg) (now : Nat) (st : St) (c r : Nat)
    (hc : c < cfg.col_size) (hr : r < cfg.row_size) (hrow : cfg.row_size ≤ 8)
    (hbit : (st.matrix_unstable_state c).testBit r = true)
    (hdebt : (if st.matrix_new_state c &&& BIT r ≠ 0 then cfg.debounce_down_ms
        else cfg.debounce_up_ms) ≤
      cfg.cyc_to_us (u32sub now (st.scan_clk_cycle
        (st.scan_cycle_idx ((c * cfg.row_size + r) % 256) % 256) % 256)) % 2 ^ 32) :
    ((debounce_matrix cfg now st).1.matrix_unstable_state c).testBit r =
      !(st.matrix_new_state c).testBit r := by
  have hr8 : r < 8 := lt_of_lt_of_le hr hrow
  have hne0 : st.matrix_unstable_state c ≠ 0 := testBit_ne_zero hbit
  have h255 : ROW_MASK.testBit r = true := by
    have he : ROW_MASK = 2 ^ 8 - 1 := by norm_num [ROW_MASK]
    rw [he, Nat.testBit_two_pow_sub_one]
    simpa using hr8
  unfold debounce_matrix
  rw [range_split c cfg.col_size hc, List.foldl_append, List.foldl_cons]
  have hPf := debounce_fold_fields cfg now (List.range' 0 c) (st, [])
  have hPo := debounce_fold_other cfg now (List.range' 0 c) (st, [])
    c (fun x hx => by
      have := List.mem_range'_1.mp hx
      omega)
  have hSuf : ∀ q : St × List Trans,
      ((List.range' (c + 1) (cfg.col_size - c - 1)).foldl
          (debounce_col cfg now) q).1.matrix_unstable_state c =
        q.1.matrix_unstable_state c :=
    fun q => (debounce_fold_other cfg now _ q c (fun x hx => by
      have := List.mem_range'_1.mp hx
      omega)).1
  rw [hSuf]
  simp only [debounce_col]
  rw [hPo.1, hPf.1, hPf.2.2.1, hPf.2.2.2.1, if_neg hne0]
  simp only [upd_self]
  rw [range_split r cfg.row_size hr, List.foldl_append, List.foldl_cons]
  have hBall : ∀ acc : Nat × Nat × List Trans,
      (((List.range' (r + 1) (cfg.row_size - r - 1)).foldl
          (debounce_row cfg c ((st, ([] : List Trans)).1.matrix_new_state c)
            (st.matrix_unstable_state c) now (fun k => (st, ([] : List Trans)).1.scan_cycle_idx (k % 256) % 256)
            (fun i => (st, ([] : List Trans)).1.scan_clk_cycle i % 256)) acc).1).testBit r =
        acc.1.testBit r :=
    fun acc => (debounce_fold_bit_other cfg c _ _ now _ _ _ acc r
      (fun x hx => by
        have := List.mem_range'_1.mp hx
        omega) hr8).1
  rw [hBall]
  have hAall : ∀ acc : Nat × Nat × List Trans,
      ((((List.range' 0 r).foldl
          (debounce_row cfg c ((st, ([] : List Trans)).1.matrix_new_state c)
            (st.matrix_unstable_state c) now (fun k => (st, ([] : List Trans)).1.scan_cycle_idx (k % 256) % 256)
            (fun i => (st, ([] : List Trans)).1.scan_clk_cycle i % 256)) acc)).1.testBit r =
        acc.1.testBit r) ∧
      ((((List.range' 0 r).foldl
          (debounce_row cfg c ((st, ([] : List Trans)).1.matrix_new_state c)
            (st.matrix_unstable_state c) now (fun k => (st, ([] : List Trans)).1.scan_cycle_idx (k % 256) % 256)
            (fun i => (st, ([] : List Trans)).1.scan_clk_cycle i % 256)) acc)).2.1.testBit r =
        acc.2.1.testBit r) :=
    fun acc => debounce_fold_bit_other cfg c _ _ now _ _ _ acc r
      (fun x hx => by
        have := List.mem_range'_1.mp hx
        omega) hr8
  have hg : st.matrix_unstable_state c &&& BIT r ≠ 0 := and_bit_ne_zero.mpr hbit
  have hnl : ¬ (cfg.cyc_to_us (u32sub now (st.scan_clk_cycle
      (st.scan_cycle_idx ((c * cfg.row_size + r) % 256) % 256) % 256)) % 4294967296 <
      (if st.matrix_new_state c &&& BIT r = 0 then cfg.debounce_up_ms
        else cfg.debounce_down_ms)) := by
    rw [show (4294967296:Nat) = 2 ^ 32 from by norm_num]
    by_cases hrb : st.matrix_new_state c &&& BIT r = 0
    · rw [if_pos hrb]
      rw [if_neg (not_not_intro hrb)] at hdebt
      exact Nat.not_lt.mpr hdebt
    · rw [if_neg hrb]
      rw [if_pos hrb] at hdebt
      exact Nat.not_lt.mpr hdebt
  have hstep : ∀ acc : Nat × Nat × List Trans,
      (debounce_row cfg c ((st, ([] : List Trans)).1.matrix_new_state c)
          (st.matrix_unstable_state c) now (fun k => (st, ([] : List Trans)).1.scan_cycle_idx (k % 256) % 256)
          (fun i => (st, ([] : List Trans)).1.scan_clk_cycle i % 256) acc r).1 =
        acc.1 &&& (ROW_MASK ^^^ (st.matrix_new_state c &&& BIT r)) := by
    intro acc
    by_cases h3 : acc.2.1 &&& BIT r = st.matrix_new_state c &&& BIT r <;>
      simp [debounce_row, hg, hnl, h3]
  rw [hstep, Nat.testBit_and, (hAall _).1]
  dsimp only
  rw [hbit, Bool.true_and, and_bit_eq]
  cases hn : (st.matrix_new_state c).testBit r
  · simp only [Bool.toNat_false, Nat.zero_mul, Nat.xor_zero]
    rw [h255]
    rfl
  · simp only [Bool.toNat_true, Nat.one_mul]
    rw [Nat.testBit_xor, h255, Nat.testBit_two_pow_self]
    rfl

/-- C1 counterexample: key (0,0) of `stC1` is marked unstable, its current raw
level is released, and the elapsed time since its stamp (1000000 µs) is far
beyond the 5 µs release threshold, so its window closes on this update — the
release transition is even emitted — yet after the update the unstable bit is
still set: the source clears with `&= ~row_bit`, a no-op when `row_bit = 0`,
so the claim's "the unstable bit is cleared regardless of whether the key's
current raw level is pressed or released" fails here. -/
theorem C1_unstable_counterexample :
    (stC1.matrix_unstable_state 0).testBit 0 = true ∧
    stC1.matrix_new_state 0 &&& BIT 0 = 0 ∧
    cfgC1.debounce_up_ms ≤
      cfgC1.cyc_to_us (u32sub 1000000 (stC1.scan_clk_cycle (stC1.scan_cycle_idx 0))) % 2 ^ 32 ∧
    (input_kbd_matrix_update_state cfgC1 1000000 stC1).2 = [(0, 0, 0)] ∧
    ((input_kbd_matrix_update_state cfgC1 1000000 stC1).1.matrix_unstable_state 0).testBit 0 =
      true := by
  exact ⟨by decide, by decide, by decide, by decide, by decide⟩

/-- C1 witness: on the released key of `stC1` the amended claim is discharged
concretely — after the update the unstable bit equals the negation of the raw
level bit, i.e. it is still set. -/
theorem C1_unstable_amended_witness :
    ((debounce_matrix cfgC1 1000000 stC1).1.matrix_unstable_state 0).testBit 0 =
      !(stC1.matrix_new_state 0).testBit 0 := by
  exact C1_unstable_amended cfgC1 1000000 stC1 0 0 (by decide) (by decide) (by decide)
    (by decide) (by decide)

end KbdMatrix
